import Mathlib

/-!
Verification of the top-analyzer core against its specification.

The Python sources (`memory_utils.py`, `compare_top_mem.py`,
`track_pid_mem.py`) are shallowly embedded below.  Conventions:

* Python `str` values are modelled as `String` / `List Char` (ASCII
  behaviour of `str.lower`, `str.isdigit`, whitespace; the sources only
  ever meet ASCII snapshot text).
* Python `float` memory quantities are modelled as exact rationals `ℚ`.
  The claims under study only involve equalities that are exact in IEEE
  arithmetic as well (scaling by powers of two, subtraction of equal
  values), so no rounding model is needed.  The special spellings
  `inf`/`nan` accepted by Python's `float()` are outside the rational
  model; the infinity *produced* by the code (`float('inf')`) is modelled
  by a dedicated sentinel constructor `PyRate.posInf`.
* Exceptions are modelled with `Except`; the `ValueError` raised by
  `parse_memory_value` carries the (stripped, lower-cased) string that the
  source interpolates into its message.
-/

/-- Characters treated as whitespace by Python's `str.strip()` and
`float()` (ASCII subset). -/
def pySpace (c : Char) : Bool :=
  c = ' ' || c = '\t' || c = '\n' || c = '\r' || c = '\x0b' || c = '\x0c'

/-- Python `str.strip()`: drop leading and trailing whitespace. -/
def pyStrip (cs : List Char) : List Char :=
  ((cs.dropWhile pySpace).reverse.dropWhile pySpace).reverse

/-- Python `str.lower()` (ASCII). -/
def pyToLower (c : Char) : Char := c.toLower

/-- Numeric value of an ASCII digit character. -/
def charVal (c : Char) : ℕ := c.toNat - 48

/-- Scan a Python `digitpart` (`digit (["_"] digit)*`): accumulates the
value and the number of digits consumed, returning the unconsumed rest.
Underscores are only allowed between digits, as in CPython. -/
def digitsAux : List Char → ℕ → ℕ → ℕ × ℕ × List Char
  | [], v, n => (v, n, [])
  | c :: rest, v, n =>
    if c.isDigit then digitsAux rest (v * 10 + charVal c) (n + 1)
    else if c = '_' then
      match rest with
      | d :: rest2 =>
        if d.isDigit then digitsAux rest2 (v * 10 + charVal d) (n + 1)
        else (v, n, c :: rest)
      | [] => (v, n, [c])
    else (v, n, c :: rest)

/-- A `digitpart` must begin with a digit. -/
def parseDigitpart (cs : List Char) : Option (ℕ × ℕ × List Char) :=
  match cs with
  | c :: _ => if c.isDigit then some (digitsAux cs 0 0) else none
  | [] => none

/-- Mantissa of a Python float literal:
`digitpart ["." [digitpart]] | "." digitpart`. -/
def parseMantissa (cs : List Char) : Option (ℚ × List Char) :=
  match parseDigitpart cs with
  | some (ip, _, r1) =>
    match r1 with
    | '.' :: r2 =>
      match parseDigitpart r2 with
      | some (fp, k, r3) => some ((ip : ℚ) + (fp : ℚ) / 10 ^ k, r3)
      | none => some ((ip : ℚ), r2)
    | _ => some ((ip : ℚ), r1)
  | none =>
    match cs with
    | '.' :: r2 =>
      match parseDigitpart r2 with
      | some (fp, k, r3) => some ((fp : ℚ) / 10 ^ k, r3)
      | none => none
    | _ => none

/-- Optional exponent of a Python float literal: `("e"|"E") [sign] digitpart`.
If no `e`/`E` follows, exponent `0` is returned and nothing is consumed;
if an `e`/`E` is present its digitpart is mandatory. -/
def parseExpPart (cs : List Char) : Option (ℤ × List Char) :=
  match cs with
  | c :: rest =>
    if c = 'e' ∨ c = 'E' then
      match rest with
      | s :: rest2 =>
        if s = '+' then (parseDigitpart rest2).map (fun p => ((p.1 : ℤ), p.2.2))
        else if s = '-' then (parseDigitpart rest2).map (fun p => (-(p.1 : ℤ), p.2.2))
        else (parseDigitpart rest).map (fun p => ((p.1 : ℤ), p.2.2))
      | [] => none
    else some (0, cs)
  | [] => some (0, [])

/-- The optional sign in front of a float literal: the sign factor and
the rest. -/
def pySign (cs : List Char) : ℚ × List Char :=
  match cs with
  | c :: r => if c = '+' then (1, r) else if c = '-' then (-1, r) else (1, c :: r)
  | [] => (1, [])

/-- Python `float(s)` on finite numeric literals: strip whitespace, optional
sign, mantissa, optional exponent, and the whole string must be consumed.
(The spellings `inf`/`infinity`/`nan` are outside this rational model; the
analysed code never feeds them to `float` in the scenarios claimed.) -/
def pyFloatCore (cs0 : List Char) : Option ℚ :=
  let sp : ℚ × List Char := pySign (pyStrip cs0)
  match parseMantissa sp.2 with
  | some (mant, r1) =>
    match parseExpPart r1 with
    | some (e, r2) => if r2 = [] then some (sp.1 * mant * (10 : ℚ) ^ e) else none
    | none => none
  | none => none

/-- The test `mem_str.replace('.', '').isdigit()` from `memory_utils.py`:
after deleting dots, the string is nonempty and all digits. -/
def pyIsDigitsDots (t : List Char) : Bool :=
  let u := t.filter (fun c => c ≠ '.')
  !u.isEmpty && u.all Char.isDigit

/-- Model of `mem_str = str(mem_str).strip().lower()`: the re-bound string the
rest of `parse_memory_value` (including its error message) works on. -/
def memNorm (raw : String) : List Char := (pyStrip raw.toList).map pyToLower

/-- Model of `memory_utils.parse_memory_value`: strip and lower-case, then
  * pure digits-and-dots → `float` directly (unit KB);
  * suffix `k` → value unchanged; `m` → ×1024; `g` → ×1024²;
  * otherwise `float` directly.
A failing `float` raises `ValueError`; the carried string is the
*stripped, lower-cased* `mem_str` (the source re-binds `mem_str` before
interpolating it into the message).  `t.getLast? = some c` is Python's
`mem_str.endswith(c)`. -/
def parse_memory_value (raw : String) : Except String ℚ :=
  let t : List Char := memNorm raw
  if pyIsDigitsDots t then
    match pyFloatCore t with
    | some q => .ok q
    | none => .error (String.mk t)
  else if t.getLast? = some 'k' then
    match pyFloatCore t.dropLast with
    | some q => .ok q
    | none => .error (String.mk t)
  else if t.getLast? = some 'm' then
    match pyFloatCore t.dropLast with
    | some q => .ok (q * 1024)
    | none => .error (String.mk t)
  else if t.getLast? = some 'g' then
    match pyFloatCore t.dropLast with
    | some q => .ok (q * 1024 * 1024)
    | none => .error (String.mk t)
  else
    match pyFloatCore t with
    | some q => .ok q
    | none => .error (String.mk t)

/-! ## Timestamp resolution (`parse_timestamp_from_filename`) -/

/-- Fuel-driven core of Python `str.replace(pat, '')`: scan left to right,
delete each non-overlapping occurrence of `pat`, continue after it.
`fuel` bounds the recursion; `strReplace` supplies `fuel = length`. -/
def strReplaceAux (pat : List Char) : ℕ → List Char → List Char
  | 0, s => s
  | _ + 1, [] => []
  | fuel + 1, c :: rest =>
    if pat ≠ [] ∧ pat.isPrefixOf (c :: rest) then
      strReplaceAux pat fuel ((c :: rest).drop pat.length)
    else c :: strReplaceAux pat fuel rest

/-- Python `s.replace(pat, '')`. -/
def strReplace (pat s : List Char) : List Char :=
  strReplaceAux pat s.length s

/-- Model of `os.path.basename` / `pathlib.Path(...).name`: the part after the last
`'/'`.  (The two Python spellings differ only on paths with a trailing
slash, which never reach the resolver: directory entries have none.) -/
def pyBasename (cs : List Char) : List Char :=
  (cs.reverse.takeWhile (fun c => c ≠ '/')).reverse

/-- A parsed `datetime` at minute granularity (Python `datetime` compares
field-lexicographically; so does `dtLt` below). -/
structure DT where
  y : ℕ
  mo : ℕ
  d : ℕ
  h : ℕ
  mi : ℕ
deriving DecidableEq, Repr

/-- Python `datetime.__lt__` (lexicographic on the fields present here). -/
def dtLt (a b : DT) : Bool :=
  decide (a.y < b.y ∨ (a.y = b.y ∧ (a.mo < b.mo ∨ (a.mo = b.mo ∧
    (a.d < b.d ∨ (a.d = b.d ∧ (a.h < b.h ∨ (a.h = b.h ∧ a.mi < b.mi))))))))

/-- Python `datetime.__le__`. -/
def dtLe (a b : DT) : Bool := dtLt a b || a == b

/-- One alternative of a `strptime` numeric directive: consume a prefix,
return its value and the rest. -/
def matchTwo (p1 p2 : Char → Bool) (cs : List Char) : Option (ℕ × List Char) :=
  match cs with
  | c1 :: c2 :: rest =>
    if p1 c1 ∧ p2 c2 then some (charVal c1 * 10 + charVal c2, rest) else none
  | _ => none

/-- Single-character alternative of a `strptime` numeric directive. -/
def matchOne (p : Char → Bool) (cs : List Char) : Option (ℕ × List Char) :=
  match cs with
  | c :: rest => if p c then some (charVal c, rest) else none
  | _ => none

/-- Directive `%Y` compiles to `\d\d\d\d`: exactly four digits. -/
def matchYear (cs : List Char) : Option (ℕ × List Char) :=
  match cs with
  | c1 :: c2 :: c3 :: c4 :: rest =>
    if c1.isDigit ∧ c2.isDigit ∧ c3.isDigit ∧ c4.isDigit then
      some (((charVal c1 * 10 + charVal c2) * 10 + charVal c3) * 10 + charVal c4, rest)
    else none
  | _ => none

/-- Directive `%m` compiles to `1[0-2]|0[1-9]|[1-9]`, alternatives in that order. -/
def monthAlts : List (List Char → Option (ℕ × List Char)) :=
  [matchTwo (fun c => c = '1') (fun c => '0' ≤ c ∧ c ≤ '2'),
   matchTwo (fun c => c = '0') (fun c => '1' ≤ c ∧ c ≤ '9'),
   matchOne (fun c => '1' ≤ c ∧ c ≤ '9')]

/-- Directive `%d` compiles to `3[01]|[12]\d|0[1-9]|[1-9]`, alternatives in that order. -/
def dayAlts : List (List Char → Option (ℕ × List Char)) :=
  [matchTwo (fun c => c = '3') (fun c => c = '0' ∨ c = '1'),
   matchTwo (fun c => c = '1' ∨ c = '2') Char.isDigit,
   matchTwo (fun c => c = '0') (fun c => '1' ≤ c ∧ c ≤ '9'),
   matchOne (fun c => '1' ≤ c ∧ c ≤ '9')]

/-- Directive `%H` compiles to `2[0-3]|[0-1]\d|\d`, alternatives in that order. -/
def hourAlts : List (List Char → Option (ℕ × List Char)) :=
  [matchTwo (fun c => c = '2') (fun c => '0' ≤ c ∧ c ≤ '3'),
   matchTwo (fun c => c = '0' ∨ c = '1') Char.isDigit,
   matchOne Char.isDigit]

/-- Directive `%M` compiles to `[0-5]\d|\d`, alternatives in that order. -/
def minuteAlts : List (List Char → Option (ℕ × List Char)) :=
  [matchTwo (fun c => '0' ≤ c ∧ c ≤ '5') Char.isDigit,
   matchOne Char.isDigit]

/-- The literal `_` between `%d` and `%H` in the format string. -/
def matchUnderscore (cs : List Char) : Option (List Char) :=
  match cs with
  | '_' :: r => some r
  | _ => none

/-- Backtracking match of the compiled `strptime` pattern
`%Y%m%d_%H%M` against a prefix of `cs`: alternatives are tried in regex
order and the first complete match wins (exactly `re.match` semantics --
the match need not consume the whole string; the caller checks leftover).
Returns the five numeric fields and the unconsumed rest. -/
def matchYmdHM (cs : List Char) : Option ((ℕ × ℕ × ℕ × ℕ × ℕ) × List Char) :=
  (matchYear cs).bind fun yr =>
  monthAlts.findSome? fun am =>
    (am yr.2).bind fun mor =>
    dayAlts.findSome? fun ad =>
      (ad mor.2).bind fun dr =>
      (matchUnderscore dr.2).bind fun r4 =>
      hourAlts.findSome? fun ah =>
        (ah r4).bind fun hr =>
        minuteAlts.findSome? fun amn =>
          (amn hr.2).bind fun mir =>
          some ((yr.1, mor.1, dr.1, hr.1, mir.1), mir.2)

/-- Gregorian month lengths, as validated by `datetime.__new__`. -/
def daysInMonth (y mo : ℕ) : ℕ :=
  if mo = 2 then
    if y % 4 = 0 ∧ (y % 100 ≠ 0 ∨ y % 400 = 0) then 29 else 28
  else if mo = 4 ∨ mo = 6 ∨ mo = 9 ∨ mo = 11 then 30
  else 31

/-- Model of `datetime.strptime(s, '%Y%m%d_%H%M')`, following CPython `_strptime`:
match the compiled regex at the start of the string (first match in
alternative order), require the whole string consumed, then build the
`datetime`, whose constructor re-validates year ≥ 1 and the day against
the month length.  Any failure is a `ValueError`, i.e. `none` here. -/
def strptimeYmdHM (cs : List Char) : Option DT :=
  match matchYmdHM cs with
  | some ((yv, mov, dv, hv, miv), rest) =>
    if rest = [] ∧ 1 ≤ yv ∧ 1 ≤ dv ∧ dv ≤ daysInMonth yv mov then
      some ⟨yv, mov, dv, hv, miv⟩
    else none
  | none => none

/-- Model of `parse_timestamp_from_filename` (identical in `compare_top_mem.py` and
`track_pid_mem.py`): basename, delete every `"top_"` and `".txt"`, then
`strptime('%Y%m%d_%H%M')`; `ValueError` is caught and yields `None`. -/
def parse_timestamp_from_filename (filename : String) : Option DT :=
  strptimeYmdHM (strReplace ".txt".toList (strReplace "top_".toList (pyBasename filename.toList)))

/-! ## Snapshot parsing -/

/-- The per-PID payload stored by the mapping parser
(`{'mem': ..., 'cmd': ...}`). -/
structure MemInfo where
  mem : ℚ
  cmd : String
deriving DecidableEq, Repr

/-- A Python dict `pid -> MemInfo` as an insertion-ordered association
list; `dictInsert` maintains the dict invariant (unique keys). -/
abbrev Dict := List (ℤ × MemInfo)

def pySplitAux : List Char → List Char → List (List Char)
  | [], acc => if acc.isEmpty then [] else [acc.reverse]
  | c :: rest, acc =>
    if pySpace c then
      if acc.isEmpty then pySplitAux rest [] else acc.reverse :: pySplitAux rest []
    else pySplitAux rest (c :: acc)

/-- Python `str.split()` with no argument: the maximal runs of
non-whitespace characters, in order. -/
def pySplit (cs : List Char) : List (List Char) := pySplitAux cs []

/-- Model of `int(s)` on a string of ASCII digits (the only shape reaching it in
the parsers, guarded by `isdigit`). -/
def digitFoldInt (cs : List Char) : ℤ :=
  cs.foldl (fun a c => a * 10 + (charVal c : ℤ)) 0

/-- The row logic shared verbatim by every `parse_top_file` in the
repository: skip blank lines and lines starting with one of the banner
prefixes `top` / `Tasks` / `%Cpu` / `MiB`; split on whitespace; require
at least 12 fields with an all-digits field 0.  An accepted row yields
`(pid, raw memory field 5, command = fields 11.. joined by spaces)`. -/
def rowFields (line : String) : Option (ℤ × String × String) :=
  let cs := line.toList
  if cs.all pySpace ∨ "top".toList.isPrefixOf cs ∨ "Tasks".toList.isPrefixOf cs ∨
      "%Cpu".toList.isPrefixOf cs ∨ "MiB".toList.isPrefixOf cs then none
  else
    let parts := pySplit cs
    let p0 := parts.getD 0 []
    if parts.length < 12 ∨ p0.isEmpty ∨ ¬ p0.all Char.isDigit then none
    else some (digitFoldInt p0, String.mk (parts.getD 5 []),
      String.intercalate " " ((parts.drop 11).map String.mk))

/-- Python dict insertion `d[pid] = v`: overwrite in place when the key is
present (keeping its original position), else append. -/
def dictInsert (d : Dict) (k : ℤ) (v : MemInfo) : Dict :=
  match d with
  | [] => [(k, v)]
  | e :: rest => if e.1 = k then (k, v) :: rest else e :: dictInsert rest k v

/-- Python `k in d` / `d[k]` combined: the value at `k`, if present. -/
def dictGet? (d : Dict) (k : ℤ) : Option MemInfo :=
  match d with
  | [] => none
  | e :: rest => if e.1 = k then some e.2 else dictGet? rest k

namespace CompareTop

/-- Line loop of `compare_top_mem.parse_top_file` (and of the inner
`get_processes` of `find_new_processes`, which is identical): accepted
rows are inserted into the dict unguarded (last write wins); a memory
field that `parse_memory_value` rejects aborts the whole parse. -/
def parseMapAux : List String → Dict → Except String Dict
  | [], d => .ok d
  | l :: rest, d =>
    match rowFields l with
    | none => parseMapAux rest d
    | some (pid, memStr, cmd) =>
      match parse_memory_value memStr with
      | .error e => .error e
      | .ok q => parseMapAux rest (dictInsert d pid ⟨q, cmd⟩)

/-- Model of `compare_top_mem.parse_top_file`: a file (as its list of lines) to
the PID → record mapping. -/
def parse_top_file (lines : List String) : Except String Dict :=
  parseMapAux lines []

end CompareTop

namespace TrackPid

/-- Model of `track_pid_mem.parse_top_file` (identical in `plot_pid_mem.py`):
scan the lines and return the record of the *first* accepted row whose
PID equals `target`; the memory field is only parsed on that row. -/
def parse_top_file : List String → ℤ → Except String (Option (ℤ × MemInfo))
  | [], _ => .ok none
  | l :: rest, target =>
    match rowFields l with
    | none => parse_top_file rest target
    | some (pid, memStr, cmd) =>
      if pid = target then
        match parse_memory_value memStr with
        | .error e => .error e
        | .ok q => .ok (some (pid, ⟨q, cmd⟩))
      else parse_top_file rest target

end TrackPid

/-! ## Diff engine, ordering guard, time-series collector -/

/-- The value space of `change_rate`: a finite Python float or one of the
two infinities.  The source only ever produces `posInf`
(`float('inf')`); `negInf` exists so the spec's signed sentinel can be
stated. -/
inductive PyRate where
  | finite (q : ℚ)
  | posInf
  | negInf
deriving DecidableEq, Repr

/-- One entry of the `compare_memory` result. -/
structure Change where
  pid : ℤ
  cmd : String
  mem1 : ℚ
  mem2 : ℚ
  change : ℚ
  change_rate : PyRate
deriving DecidableEq, Repr

/-- One iteration of the comparison loop of `compare_memory`: the entry
contributed by a PID of the earlier dict — present in the later dict
with a different memory value, change computed, command taken from the
earlier snapshot, rate guarded by `mem1 > 0` with `float('inf')`
otherwise. -/
def diffRow (d2 : Dict) (e : ℤ × MemInfo) : Option Change :=
  match dictGet? d2 e.1 with
  | some i2 =>
    if e.2.mem ≠ i2.mem then
      some { pid := e.1, cmd := e.2.cmd, mem1 := e.2.mem, mem2 := i2.mem,
             change := i2.mem - e.2.mem,
             change_rate :=
               if 0 < e.2.mem then .finite ((i2.mem - e.2.mem) / e.2.mem * 100)
               else .posInf }
    else none
  | none => none

/-- The body of `compare_memory` on two already-parsed dictionaries: the
loop over the earlier dict (`diffRow`) followed by `sorted(..., key=
lambda x: abs(x['change']), reverse=True)` — a stable descending sort,
modelled by the stable `mergeSort` with ≥ on `|change|`. -/
def compare_memory_core (d1 d2 : Dict) : List Change :=
  (d1.filterMap (diffRow d2)).mergeSort fun a b => decide (|b.change| ≤ |a.change|)

/-- Model of `compare_memory(file1, file2)`: parse both files, then diff; a
`ValueError` from either parse propagates. -/
def compare_memory (lines1 lines2 : List String) : Except String (List Change) :=
  match CompareTop.parse_top_file lines1 with
  | .error e => .error e
  | .ok d1 =>
    match CompareTop.parse_top_file lines2 with
    | .error e => .error e
    | .ok d2 => .ok (compare_memory_core d1 d2)

/-- One entry of the `find_new_processes` result.  The source rows also
carry `mem_mb`/`mem_gb`, rounded display duplicates of `mem_kb` consumed
only by the table formatter; they are output formatting and not part of
the core model. -/
structure NewProc where
  pid : ℤ
  mem_kb : ℚ
  cmd : String
deriving DecidableEq, Repr

/-- One iteration of the selection loop of `find_new_processes`: a PID of
the later snapshot contributes exactly when it is absent from the
earlier one and has positive memory. -/
def newRow (d1 : Dict) (e : ℤ × MemInfo) : Option NewProc :=
  if (dictGet? d1 e.1).isNone ∧ 0 < e.2.mem then
    some { pid := e.1, mem_kb := e.2.mem, cmd := e.2.cmd }
  else none

/-- The body of `find_new_processes` on parsed dictionaries: the loop
over the later dict (`newRow`) followed by `sort(key=lambda x:
x['mem_kb'], reverse=True)` — stable descending by memory. -/
def find_new_core (d1 d2 : Dict) : List NewProc :=
  (d2.filterMap (newRow d1)).mergeSort fun a b => decide (b.mem_kb ≤ a.mem_kb)

/-- Model of `find_new_processes(file1, file2)`: parse both files (the inner
`get_processes` repeats `parse_top_file` verbatim), then select. -/
def find_new_processes (lines1 lines2 : List String) : Except String (List NewProc) :=
  match CompareTop.parse_top_file lines1 with
  | .error e => .error e
  | .ok d1 =>
    match CompareTop.parse_top_file lines2 with
    | .error e => .error e
    | .ok d2 => .ok (find_new_core d1 d2)

/-- Model of `ensure_time_order`: resolve both names, raise `ValueError` when
either fails, otherwise swap when the first is strictly later.  The
boolean records whether the swap warning was printed (the reportable,
non-fatal condition). -/
def ensure_time_order (file1 file2 : String) : Except Unit (String × String × Bool) :=
  match parse_timestamp_from_filename file1, parse_timestamp_from_filename file2 with
  | some t1, some t2 =>
    if dtLt t2 t1 then .ok (file2, file1, true) else .ok (file1, file2, false)
  | _, _ => .error ()

/-- One point of the memory time series.  The source stores
`timestamp.strftime('%Y-%m-%d %H:%M')`; the formatting is injective on
the parsed fields, so the `DT` itself is kept. -/
structure TSPoint where
  timestamp : DT
  pid : ℤ
  mem : ℚ
  cmd : String
deriving DecidableEq, Repr

/-- Failures of `collect_memory_data`: the `TypeError` raised by
`sorted()` when a `None` key is compared with a `datetime`, and the
`ValueError` propagated from `parse_memory_value`. -/
inductive CollectErr where
  | typeErr
  | valueErr (msg : String)
deriving DecidableEq, Repr

/-- Model of the `Path(dir).glob('top_*.txt')` membership test for one entry name. -/
def globTopTxt (name : String) : Bool :=
  "top_".toList.isPrefixOf name.toList && ".txt".toList.isSuffixOf name.toList &&
    decide (8 ≤ name.toList.length)

/-- The scan loop of `collect_memory_data` over the time-ordered snapshot
files: re-resolve each name (skipping unresolvable ones — reachable only
when a single file matched, since `sorted` would already have raised),
parse the file for the PID, append one point when found, and remember the
command of the last point as `cmd_name`. -/
def collectGo : List (String × List String) → ℤ → List TSPoint → Option String →
    Except CollectErr (List TSPoint × Option String)
  | [], _, acc, cmdName => .ok (acc.reverse, cmdName)
  | e :: rest, target, acc, cmdName =>
    match parse_timestamp_from_filename e.1 with
    | none => collectGo rest target acc cmdName
    | some t =>
      match TrackPid.parse_top_file e.2 target with
      | .error msg => .error (.valueErr msg)
      | .ok none => collectGo rest target acc cmdName
      | .ok (some (pid, info)) =>
        collectGo rest target
          ({ timestamp := t, pid := pid, mem := info.mem, cmd := info.cmd } :: acc)
          (some info.cmd)

/-- Model of `collect_memory_data(snapshots_dir, target_pid)`.  The directory is a
finite enumeration of `(entry name, file lines)`.  `sorted(files,
key=parse_timestamp_from_filename)` computes every key and compares keys
pairwise; whenever at least two entries match the glob and any key is
`None`, some comparison involves `None` and raises `TypeError` (CPython's
run detection compares every element at least once).  Otherwise the
matching entries are sorted ascending by timestamp (stably) and scanned
in order by `collectGo`. -/
def collect_memory_data (dirEntries : List (String × List String)) (targetPid : ℤ) :
    Except CollectErr (List TSPoint × Option String) :=
  let files := dirEntries.filter fun e => globTopTxt e.1
  if 2 ≤ files.length ∧ files.any fun e => (parse_timestamp_from_filename e.1).isNone then
    .error .typeErr
  else
    let sortedFiles := files.mergeSort fun a b =>
      match parse_timestamp_from_filename a.1, parse_timestamp_from_filename b.1 with
      | some ta, some tb => dtLe ta tb
      | _, _ => true
    collectGo sortedFiles targetPid [] none

/-! ## Spec-side constructions used to state the claims -/

/-- The two-digit zero-padded decimal form of `n < 100`. -/
def pad2 (n : ℕ) : List Char := [Char.ofNat (48 + n / 10), Char.ofNat (48 + n % 10)]

/-- The four-digit zero-padded decimal form of `n < 10000`. -/
def pad4 (n : ℕ) : List Char :=
  [Char.ofNat (48 + n / 1000), Char.ofNat (48 + n / 100 % 10),
   Char.ofNat (48 + n / 10 % 10), Char.ofNat (48 + n % 10)]

/-- The `YYYYMMDD_HHMM` middle of a canonical snapshot name. -/
def topCore (y mo d h mi : ℕ) : List Char :=
  pad4 y ++ (pad2 mo ++ (pad2 d ++ ('_' :: (pad2 h ++ pad2 mi))))

/-- A name exactly matching the spec's snapshot naming convention
`top_YYYYMMDD_HHMM.txt` (§4.3/§6), built from its five fields. -/
def topName (y mo d h mi : ℕ) : String :=
  String.mk ("top_".toList ++ (topCore y mo d h mi ++ ".txt".toList))

/-- The spec's signed unbounded sentinel (§4.4): "the sign follows the
sign of `change_kb`". -/
def specSentinel (change : ℚ) : PyRate :=
  if change < 0 then .negInf else .posInf

/-- Whether a line is an accepted data row bearing the given PID — the
rows on which the per-PID parser and the mapping parser can disagree
when there is more than one of them in a file. -/
def isTargetRow (t : ℤ) (l : String) : Bool :=
  match rowFields l with
  | some (pid, _, _) => pid == t
  | none => false

/-! ## Supporting lemmas -/

theorem mem_of_getLast?_eq_some {t : List Char} {c : Char} (h : t.getLast? = some c) :
    c ∈ t := by
  have h2 := List.dropLast_append_getLast? (l := t) c (Option.mem_def.mpr h)
  rw [← h2]
  simp

theorem pyIsDigitsDots_eq_false_of_getLast {t : List Char} {c : Char}
    (h : t.getLast? = some c) (hdot : c ≠ '.') (hdig : c.isDigit = false) :
    pyIsDigitsDots t = false := by
  have hc : c ∈ t.filter (fun c => c ≠ '.') :=
    List.mem_filter.mpr ⟨mem_of_getLast?_eq_some h, by simp [hdot]⟩
  cases hall : (t.filter (fun c => c ≠ '.')).all Char.isDigit with
  | false =>
    simp only [pyIsDigitsDots]
    rw [hall, Bool.and_false]
  | true =>
    have := List.all_eq_true.mp hall c hc
    simp [hdig] at this

/-- Claim C4: for every valid memory literal, normalize returns the
numeric value unchanged when there is no unit suffix or a `k` suffix
(case-insensitive, surrounding whitespace trimmed), multiplies by 1024
for an `m` suffix, and by 1024·1024 for a `g` suffix; concretely
`normalize("1g") = 1048576`, `normalize("512m") = 524288`,
`normalize("256") = 256`. -/
theorem C4_normalize_unit_suffixes :
    (∀ (raw : String) (q : ℚ), (memNorm raw).getLast? ≠ some 'k' →
      (memNorm raw).getLast? ≠ some 'm' → (memNorm raw).getLast? ≠ some 'g' →
      pyFloatCore (memNorm raw) = some q → parse_memory_value raw = .ok q) ∧
    (∀ (raw : String) (q : ℚ), (memNorm raw).getLast? = some 'k' →
      pyFloatCore (memNorm raw).dropLast = some q → parse_memory_value raw = .ok q) ∧
    (∀ (raw : String) (q : ℚ), (memNorm raw).getLast? = some 'm' →
      pyFloatCore (memNorm raw).dropLast = some q →
      parse_memory_value raw = .ok (q * 1024)) ∧
    (∀ (raw : String) (q : ℚ), (memNorm raw).getLast? = some 'g' →
      pyFloatCore (memNorm raw).dropLast = some q →
      parse_memory_value raw = .ok (q * 1024 * 1024)) ∧
    parse_memory_value "1g" = .ok 1048576 ∧
    parse_memory_value "512m" = .ok 524288 ∧
    parse_memory_value "256" = .ok 256 := by
  refine ⟨?_, ?_, ?_, ?_, ?_, ?_, ?_⟩
  · intro raw q hk hm hg hf
    unfold parse_memory_value
    by_cases hd : pyIsDigitsDots (memNorm raw) = true
    · simp [hd, hf]
    · simp [hd, hk, hm, hg, hf]
  · intro raw q hk hf
    have hd := pyIsDigitsDots_eq_false_of_getLast hk (by decide) (by decide)
    unfold parse_memory_value
    simp [hd, hk, hf]
  · intro raw q hm hf
    have hd := pyIsDigitsDots_eq_false_of_getLast hm (by decide) (by decide)
    have hk : (memNorm raw).getLast? ≠ some 'k' := by simp [hm]
    unfold parse_memory_value
    simp [hd, hk, hm, hf]
  · intro raw q hg hf
    have hd := pyIsDigitsDots_eq_false_of_getLast hg (by decide) (by decide)
    have hk : (memNorm raw).getLast? ≠ some 'k' := by simp [hg]
    have hm : (memNorm raw).getLast? ≠ some 'm' := by simp [hg]
    unfold parse_memory_value
    simp [hd, hk, hm, hg, hf]
  · simp +decide [parse_memory_value, memNorm, pyIsDigitsDots, pyStrip, pyToLower, pySpace, pySign,
      pyFloatCore, parseMantissa, parseDigitpart, digitsAux, parseExpPart, charVal]
    norm_num
  · simp +decide [parse_memory_value, memNorm, pyIsDigitsDots, pyStrip, pyToLower, pySpace, pySign,
      pyFloatCore, parseMantissa, parseDigitpart, digitsAux, parseExpPart, charVal]
    norm_num
  · simp +decide [parse_memory_value, memNorm, pyIsDigitsDots, pyStrip, pyToLower, pySpace, pySign,
      pyFloatCore, parseMantissa, parseDigitpart, digitsAux, parseExpPart, charVal]

/-- Witness for C4: the suffix clauses applied at concrete literals. -/
theorem C4_normalize_unit_suffixes_witness :
    parse_memory_value "2K" = .ok 2 ∧ parse_memory_value "2M" = .ok (2 * 1024) := by
  constructor
  · exact C4_normalize_unit_suffixes.2.1 "2K" 2 (by decide)
      (by simp +decide [memNorm, pyStrip, pyToLower, pySpace, pySign, pyFloatCore, parseMantissa,
        parseDigitpart, digitsAux, parseExpPart, charVal])
  · exact C4_normalize_unit_suffixes.2.2.1 "2M" 2 (by decide)
      (by simp +decide [memNorm, pyStrip, pyToLower, pySpace, pySign, pyFloatCore, parseMantissa,
        parseDigitpart, digitsAux, parseExpPart, charVal])

/-- Claim C9 is falsified on the code: `normalize("  XYZ ")` fails, but the
error carries `"xyz"` — the stripped, lower-cased string — not the
original raw string `"  XYZ "`. -/
theorem C9_error_payload_counterexample :
    parse_memory_value "  XYZ " = .error "xyz" ∧ "xyz" ≠ "  XYZ " := by
  constructor
  · simp +decide [parse_memory_value, memNorm, pyIsDigitsDots, pyStrip, pyToLower, pySpace, pySign,
      pyFloatCore, parseMantissa, parseDigitpart, digitsAux, parseExpPart, charVal]
  · decide

/-- Claim C9 as amended: for every raw string whose numeric portion is not
parseable as a real number (neither the normalized string nor the
normalized string less its final suffix character parses as a float),
normalize fails with `InvalidMemoryValue`, and the error carries the
*stripped, lower-cased* raw string for diagnostics. -/
theorem C9_error_payload_amended (raw : String)
    (h1 : pyFloatCore (memNorm raw) = none)
    (h2 : pyFloatCore (memNorm raw).dropLast = none) :
    parse_memory_value raw = .error (String.mk (memNorm raw)) := by
  unfold parse_memory_value
  by_cases hd : pyIsDigitsDots (memNorm raw) = true
  · simp [hd, h1]
  · by_cases hk : (memNorm raw).getLast? = some 'k'
    · simp [hd, hk, h2]
    · by_cases hm : (memNorm raw).getLast? = some 'm'
      · simp [hd, hk, hm, h2]
      · by_cases hg : (memNorm raw).getLast? = some 'g'
        · simp [hd, hk, hm, hg, h2]
        · simp [hd, hk, hm, hg, h1]

/-- Witness for the amended C9 at a concrete unparseable input. -/
theorem C9_error_payload_amended_witness :
    parse_memory_value " foo " = .error "foo" := by
  have h := C9_error_payload_amended " foo "
    (by simp +decide [memNorm, pyStrip, pyToLower, pySpace, pySign, pyFloatCore, parseMantissa,
      parseDigitpart, digitsAux, parseExpPart, charVal])
    (by simp +decide [memNorm, pyStrip, pyToLower, pySpace, pySign, pyFloatCore, parseMantissa,
      parseDigitpart, digitsAux, parseExpPart, charVal])
  simpa using h

theorem mem_of_mem_mergeSort {α : Type} {le : α → α → Bool} {l : List α} {a : α}
    (h : a ∈ l.mergeSort le) : a ∈ l :=
  (List.mergeSort_perm l le).mem_iff.mp h

theorem countP_mergeSort {α : Type} (le : α → α → Bool) (l : List α) (p : α → Bool) :
    (l.mergeSort le).countP p = l.countP p :=
  (List.mergeSort_perm l le).countP_eq p

/-- In a dict with `Nodup` keys, every member is found by lookup. -/
theorem dictGet?_of_mem_nodup {d : Dict} (hnd : (d.map Prod.fst).Nodup)
    {x : ℤ × MemInfo} (hx : x ∈ d) : dictGet? d x.1 = some x.2 := by
  induction d with
  | nil => cases hx
  | cons y rest ih =>
    rw [List.map_cons, List.nodup_cons] at hnd
    rcases List.mem_cons.mp hx with rfl | hmem
    · simp [dictGet?]
    · have hne : y.1 ≠ x.1 := by
        intro hcontra
        exact hnd.1 (hcontra ▸ List.mem_map.mpr ⟨x, hmem, rfl⟩)
      simp only [dictGet?, if_neg hne]
      exact ih hnd.2 hmem

/-- What a successful `diffRow` tells us. -/
theorem diffRow_eq_some {d2 : Dict} {x : ℤ × MemInfo} {c : Change}
    (h : diffRow d2 x = some c) :
    ∃ i2, dictGet? d2 x.1 = some i2 ∧ x.2.mem ≠ i2.mem ∧
      c = { pid := x.1, cmd := x.2.cmd, mem1 := x.2.mem, mem2 := i2.mem,
            change := i2.mem - x.2.mem,
            change_rate :=
              if 0 < x.2.mem then .finite ((i2.mem - x.2.mem) / x.2.mem * 100)
              else .posInf } := by
  unfold diffRow at h
  split at h
  · split at h
    · rename_i i2 hg hne
      cases h
      exact ⟨i2, hg, hne, rfl⟩
    · cases h
  · cases h

/-- What a failing `diffRow` tells us. -/
theorem diffRow_eq_none {d2 : Dict} {x : ℤ × MemInfo}
    (h : diffRow d2 x = none) :
    dictGet? d2 x.1 = none ∨ ∃ i2, dictGet? d2 x.1 = some i2 ∧ x.2.mem = i2.mem := by
  unfold diffRow at h
  split at h
  · split at h
    · cases h
    · rename_i i2 hg hne
      push_neg at hne
      exact Or.inr ⟨i2, hg, hne⟩
  · rename_i hg
    exact Or.inl hg

theorem pid_mem_keys_of_mem_diff {d1 d2 : Dict} {c : Change}
    (h : c ∈ d1.filterMap (diffRow d2)) : c.pid ∈ d1.map Prod.fst := by
  rcases List.mem_filterMap.mp h with ⟨x, hx, hfx⟩
  obtain ⟨i2, _, _, rfl⟩ := diffRow_eq_some hfx
  exact List.mem_map.mpr ⟨x, hx, rfl⟩

/-- Count of diff entries carrying a given PID, before sorting. -/
theorem countP_diff_filterMap (d1 d2 : Dict) (h1 : (d1.map Prod.fst).Nodup) (p : ℤ) :
    (d1.filterMap (diffRow d2)).countP (fun e => decide (e.pid = p)) =
      (match dictGet? d1 p, dictGet? d2 p with
        | some i1, some i2 => if i1.mem ≠ i2.mem then 1 else 0
        | _, _ => 0) := by
  induction d1 with
  | nil => simp [dictGet?]
  | cons x rest ih =>
    rw [List.map_cons, List.nodup_cons] at h1
    rw [List.filterMap_cons]
    by_cases hx : x.1 = p
    · subst hx
      have hget1 : dictGet? (x :: rest) x.1 = some x.2 := by simp [dictGet?]
      have hrest0 : (rest.filterMap (diffRow d2)).countP (fun e => decide (e.pid = x.1)) = 0 := by
        rw [List.countP_eq_zero]
        intro c hc
        simp only [decide_eq_true_eq]
        intro hpid
        exact h1.1 (hpid ▸ pid_mem_keys_of_mem_diff hc)
      rcases hrow : diffRow d2 x with _ | c
      · rcases diffRow_eq_none hrow with hg | ⟨i2, hg, heq⟩
        · simp [hget1, hg, hrest0]
        · simp [hget1, hg, hrest0, heq]
      · obtain ⟨i2, hg, hne, rfl⟩ := diffRow_eq_some hrow
        rw [List.countP_cons, hrest0]
        simp [hget1, hg, hne]
    · have hget1 : dictGet? (x :: rest) p = dictGet? rest p := by
        simp [dictGet?, hx]
      rcases hrow : diffRow d2 x with _ | c
      · rw [hget1]
        exact ih h1.2
      · rw [List.countP_cons, hget1]
        have hc : (decide (c.pid = p) : Bool) = false := by
          obtain ⟨i2, hg, hne, rfl⟩ := diffRow_eq_some hrow
          simp [hx]
        rw [hc]
        simpa using ih h1.2

theorem sorted_compare_memory_core (d1 d2 : Dict) :
    (compare_memory_core d1 d2).Sorted (fun a b => |b.change| ≤ |a.change|) := by
  have hp := @List.sorted_mergeSort Change
    (fun a b : Change => decide (|b.change| ≤ |a.change|))
    (fun a b c hab hbc => by
      simp only [decide_eq_true_eq] at *
      exact le_trans hbc hab)
    (fun a b => by
      simp only [Bool.or_eq_true, decide_eq_true_eq]
      exact le_total _ _)
    (d1.filterMap (diffRow d2))
  exact hp.imp (by simp)

/-- Claim C1: for every pair of parsed snapshots, the diff contains
exactly one entry per PID present in both whose memory values differ
(and none for any other PID — in particular PIDs with zero change are
excluded), each entry carrying `change = mem_after - mem_before` and the
command of the earlier snapshot, and the result is ordered by descending
absolute change. -/
theorem C1_diff_engine (d1 d2 : Dict) (h1 : (d1.map Prod.fst).Nodup) :
    (∀ p : ℤ, (compare_memory_core d1 d2).countP (fun e => decide (e.pid = p)) =
      (match dictGet? d1 p, dictGet? d2 p with
        | some i1, some i2 => if i1.mem ≠ i2.mem then 1 else 0
        | _, _ => 0)) ∧
    (∀ c ∈ compare_memory_core d1 d2,
      dictGet? d1 c.pid = some ⟨c.mem1, c.cmd⟩ ∧
      (∃ i2, dictGet? d2 c.pid = some i2 ∧ i2.mem = c.mem2) ∧
      c.change = c.mem2 - c.mem1 ∧ c.change ≠ 0) ∧
    (compare_memory_core d1 d2).Sorted (fun a b => |b.change| ≤ |a.change|) := by
  refine ⟨?_, ?_, sorted_compare_memory_core d1 d2⟩
  · intro p
    unfold compare_memory_core
    rw [countP_mergeSort]
    exact countP_diff_filterMap d1 d2 h1 p
  · intro c hc
    have hc2 := mem_of_mem_mergeSort (l := d1.filterMap (diffRow d2)) hc
    rcases List.mem_filterMap.mp hc2 with ⟨x, hx, hfx⟩
    obtain ⟨i2, hg, hne, rfl⟩ := diffRow_eq_some hfx
    refine ⟨?_, ⟨i2, hg, rfl⟩, rfl, ?_⟩
    · exact dictGet?_of_mem_nodup h1 hx
    · exact sub_ne_zero.mpr (Ne.symm hne)

/-- Witness for C1 at the spec's worked example (§8). -/
theorem C1_diff_engine_witness :
    (compare_memory_core [(100, ⟨2048, "proc_a"⟩), (200, ⟨512, "proc_b"⟩)]
        [(100, ⟨4096, "proc_a"⟩), (300, ⟨1024, "proc_c"⟩)]).countP
      (fun e => decide (e.pid = 100)) =
      (match dictGet? [(100, ⟨2048, "proc_a"⟩), (200, ⟨512, "proc_b"⟩)] 100,
             dictGet? [(100, ⟨4096, "proc_a"⟩), (300, ⟨1024, "proc_c"⟩)] 100 with
        | some i1, some i2 => if i1.mem ≠ i2.mem then 1 else 0
        | _, _ => 0) :=
  (C1_diff_engine _ _ (by simp)).1 100

/-- What a successful `newRow` tells us. -/
theorem newRow_eq_some {d1 : Dict} {x : ℤ × MemInfo} {c : NewProc}
    (h : newRow d1 x = some c) :
    dictGet? d1 x.1 = none ∧ 0 < x.2.mem ∧ c = ⟨x.1, x.2.mem, x.2.cmd⟩ := by
  unfold newRow at h
  split at h
  · rename_i hcond
    cases h
    exact ⟨Option.isNone_iff_eq_none.mp hcond.1, hcond.2, rfl⟩
  · cases h

/-- What a failing `newRow` tells us. -/
theorem newRow_eq_none {d1 : Dict} {x : ℤ × MemInfo}
    (h : newRow d1 x = none) : ¬(dictGet? d1 x.1 = none ∧ 0 < x.2.mem) := by
  unfold newRow at h
  split at h
  · cases h
  · rename_i hcond
    rw [Option.isNone_iff_eq_none] at hcond
    exact hcond

theorem pid_mem_keys_of_mem_new {d1 d2 : Dict} {c : NewProc}
    (h : c ∈ d2.filterMap (newRow d1)) : c.pid ∈ d2.map Prod.fst := by
  rcases List.mem_filterMap.mp h with ⟨x, hx, hfx⟩
  obtain ⟨_, _, rfl⟩ := newRow_eq_some hfx
  exact List.mem_map.mpr ⟨x, hx, rfl⟩

/-- Count of new-process entries carrying a given PID, before sorting. -/
theorem countP_new_filterMap (d1 d2 : Dict) (h2 : (d2.map Prod.fst).Nodup) (p : ℤ) :
    (d2.filterMap (newRow d1)).countP (fun e => decide (e.pid = p)) =
      (match dictGet? d2 p with
        | some i => if dictGet? d1 p = none ∧ 0 < i.mem then 1 else 0
        | none => 0) := by
  induction d2 with
  | nil => simp [dictGet?]
  | cons x rest ih =>
    rw [List.map_cons, List.nodup_cons] at h2
    rw [List.filterMap_cons]
    by_cases hx : x.1 = p
    · subst hx
      have hget2 : dictGet? (x :: rest) x.1 = some x.2 := by simp [dictGet?]
      have hrest0 : (rest.filterMap (newRow d1)).countP (fun e => decide (e.pid = x.1)) = 0 := by
        rw [List.countP_eq_zero]
        intro c hc
        simp only [decide_eq_true_eq]
        intro hpid
        exact h2.1 (hpid ▸ pid_mem_keys_of_mem_new hc)
      rcases hrow : newRow d1 x with _ | c
      · have hcond := newRow_eq_none hrow
        simp [hget2, hrest0, hcond]
      · obtain ⟨hn, hpos, rfl⟩ := newRow_eq_some hrow
        rw [List.countP_cons, hrest0]
        simp [hget2, hn, hpos]
    · have hget2 : dictGet? (x :: rest) p = dictGet? rest p := by
        simp [dictGet?, hx]
      rcases hrow : newRow d1 x with _ | c
      · rw [hget2]
        exact ih h2.2
      · rw [List.countP_cons, hget2]
        have hc : (decide (c.pid = p) : Bool) = false := by
          obtain ⟨_, _, rfl⟩ := newRow_eq_some hrow
          simp [hx]
        rw [hc]
        simpa using ih h2.2

theorem sorted_find_new_core (d1 d2 : Dict) :
    (find_new_core d1 d2).Sorted (fun a b => b.mem_kb ≤ a.mem_kb) := by
  have hp := @List.sorted_mergeSort NewProc
    (fun a b : NewProc => decide (b.mem_kb ≤ a.mem_kb))
    (fun a b c hab hbc => by
      simp only [decide_eq_true_eq] at *
      exact le_trans hbc hab)
    (fun a b => by
      simp only [Bool.or_eq_true, decide_eq_true_eq]
      exact le_total _ _)
    (d2.filterMap (newRow d1))
  exact hp.imp (by simp)

/-- Claim C5: for every pair of parsed snapshots, `detect_new` returns
exactly the entries for PIDs present in the later snapshot, absent from
the earlier one and with positive memory (one entry each, none for any
other PID), ordered by descending `memory_kb`; no entry has a PID
present in the earlier snapshot or `memory_kb ≤ 0`. -/
theorem C5_detect_new (d1 d2 : Dict) (h2 : (d2.map Prod.fst).Nodup) :
    (∀ p : ℤ, (find_new_core d1 d2).countP (fun e => decide (e.pid = p)) =
      (match dictGet? d2 p with
        | some i => if dictGet? d1 p = none ∧ 0 < i.mem then 1 else 0
        | none => 0)) ∧
    (∀ c ∈ find_new_core d1 d2,
      dictGet? d1 c.pid = none ∧ 0 < c.mem_kb ∧
      dictGet? d2 c.pid = some ⟨c.mem_kb, c.cmd⟩) ∧
    (find_new_core d1 d2).Sorted (fun a b => b.mem_kb ≤ a.mem_kb) := by
  refine ⟨?_, ?_, sorted_find_new_core d1 d2⟩
  · intro p
    unfold find_new_core
    rw [countP_mergeSort]
    exact countP_new_filterMap d1 d2 h2 p
  · intro c hc
    have hc2 := mem_of_mem_mergeSort (l := d2.filterMap (newRow d1)) hc
    rcases List.mem_filterMap.mp hc2 with ⟨x, hx, hfx⟩
    obtain ⟨hn, hpos, rfl⟩ := newRow_eq_some hfx
    exact ⟨hn, hpos, dictGet?_of_mem_nodup h2 hx⟩

/-- Witness for C5 at the spec's worked example (§8). -/
theorem C5_detect_new_witness :
    (find_new_core [(100, ⟨2048, "proc_a"⟩), (200, ⟨512, "proc_b"⟩)]
        [(100, ⟨4096, "proc_a"⟩), (300, ⟨1024, "proc_c"⟩)]).countP
      (fun e => decide (e.pid = 300)) =
      (match dictGet? [(100, ⟨4096, "proc_a"⟩), (300, ⟨1024, "proc_c"⟩)] 300 with
        | some i => if dictGet? [(100, ⟨2048, "proc_a"⟩), (200, ⟨512, "proc_b"⟩)] 300 = none ∧
            0 < i.mem then 1 else 0
        | none => 0) :=
  (C5_detect_new _ _ (by simp)).1 300

/-- Claim C7 as amended: a diff entry's `change_rate` is
`change / mem_before * 100` when `mem_before > 0` and the *positive*
unbounded sentinel otherwise, regardless of the sign of `change_kb`. -/
theorem C7_change_rate_amended (d1 d2 : Dict) (c : Change)
    (hc : c ∈ compare_memory_core d1 d2) :
    c.change_rate = if 0 < c.mem1 then .finite (c.change / c.mem1 * 100) else .posInf := by
  have hc2 := mem_of_mem_mergeSort (l := d1.filterMap (diffRow d2)) hc
  rcases List.mem_filterMap.mp hc2 with ⟨x, hx, hfx⟩
  obtain ⟨i2, hg, hne, rfl⟩ := diffRow_eq_some hfx
  rfl

/-- Witness for the amended C7 at a concrete entry with `mem_before = 0`. -/
theorem C7_change_rate_amended_witness :
    PyRate.posInf = if (0 : ℚ) < 0 then PyRate.finite (((1 : ℚ) - 0) / 0 * 100)
      else PyRate.posInf := by
  have h := C7_change_rate_amended [(1, ⟨0, "c"⟩)] [(1, ⟨1, "c"⟩)]
    { pid := 1, cmd := "c", mem1 := 0, mem2 := 1, change := 1 - 0,
      change_rate := .posInf }
    (by
      unfold compare_memory_core
      refine (List.mergeSort_perm _ _).mem_iff.mpr ?_
      simp [diffRow, dictGet?])
  simp at h
  simp [h]

/-- Claim C10 is falsified on the code: a syntactically accepted row whose
memory field is `-5` parses into a record with `memory_kb = -5 < 0`. -/
theorem C10_negative_memory_counterexample :
    CompareTop.parse_top_file ["1 a b c d -5 f g h i j cmd"] = .ok [(1, ⟨-5, "cmd"⟩)] ∧
    (-5 : ℚ) < 0 := by
  constructor
  · simp +decide [CompareTop.parse_top_file, CompareTop.parseMapAux, rowFields, pySplit,
      pySplitAux, pySpace, digitFoldInt, charVal, parse_memory_value, memNorm, pyIsDigitsDots,
      pyStrip, pyToLower, pySign, pyFloatCore, parseMantissa, parseDigitpart, digitsAux,
      parseExpPart, dictInsert]
  · norm_num

theorem digitFoldInt_nonneg (cs : List Char) : 0 ≤ digitFoldInt cs := by
  unfold digitFoldInt
  suffices h : ∀ a : ℤ, 0 ≤ a → 0 ≤ cs.foldl (fun a c => a * 10 + (charVal c : ℤ)) a from
    h 0 le_rfl
  induction cs with
  | nil => intro a ha; simpa using ha
  | cons c rest ih =>
    intro a ha
    exact ih _ (add_nonneg (by positivity) (Int.natCast_nonneg _))

theorem rowFields_pid_nonneg {l : String} {pid : ℤ} {ms cmd : String}
    (h : rowFields l = some (pid, ms, cmd)) : 0 ≤ pid := by
  simp only [rowFields] at h
  split at h
  · cases h
  · split at h
    · cases h
    · cases h
      exact digitFoldInt_nonneg _

theorem parseMantissa_nonneg {cs : List Char} {mant : ℚ} {r : List Char}
    (h : parseMantissa cs = some (mant, r)) : 0 ≤ mant := by
  unfold parseMantissa at h
  split at h
  · split at h
    · split at h
      · cases h; positivity
      · cases h; positivity
    · cases h; positivity
  · split at h
    · split at h
      · cases h; positivity
      · cases h
    · cases h

theorem pySign_fst_eq_one {cs : List Char} (h : cs.head? ≠ some '-') :
    (pySign cs).1 = 1 := by
  rcases cs with _ | ⟨c, r⟩
  · rfl
  · have hc : c ≠ '-' := by simpa using h
    by_cases hp : c = '+'
    · simp [pySign, hp]
    · simp [pySign, hp, hc]

/-- A float literal not starting (after stripping) with `'-'` is
nonnegative. -/
theorem pyFloatCore_nonneg {u : List Char} {q : ℚ} (h : pyFloatCore u = some q)
    (hh : (pyStrip u).head? ≠ some '-') : 0 ≤ q := by
  have hs := pySign_fst_eq_one hh
  simp only [pyFloatCore] at h
  split at h
  · split at h
    · split at h
      · rename_i mant r1 hmant zz e r2 hexp hr2
        cases h
        rw [hs, one_mul]
        have hm := parseMantissa_nonneg hmant
        have hp : (0 : ℚ) < (10 : ℚ) ^ e := zpow_pos (by norm_num) e
        exact mul_nonneg hm (le_of_lt hp)
      · cases h
    · cases h
  · cases h

/-- A successful `parse_memory_value` whose normalized memory field does
not begin with a minus sign (with or without its final suffix character)
yields a nonnegative value. -/
theorem parse_memory_value_nonneg {ms : String} {q : ℚ}
    (h : parse_memory_value ms = .ok q)
    (h1 : (pyStrip (memNorm ms)).head? ≠ some '-')
    (h2 : (pyStrip ((memNorm ms).dropLast)).head? ≠ some '-') : 0 ≤ q := by
  simp only [parse_memory_value] at h
  split at h
  · split at h
    · rename_i hf
      cases h
      exact pyFloatCore_nonneg hf h1
    · cases h
  · split at h
    · split at h
      · rename_i hf
        cases h
        exact pyFloatCore_nonneg hf h2
      · cases h
    · split at h
      · split at h
        · rename_i hf
          cases h
          exact mul_nonneg (pyFloatCore_nonneg hf h2) (by norm_num)
        · cases h
      · split at h
        · split at h
          · rename_i hf
            cases h
            exact mul_nonneg (mul_nonneg (pyFloatCore_nonneg hf h2) (by norm_num)) (by norm_num)
          · cases h
        · split at h
          · rename_i hf
            cases h
            exact pyFloatCore_nonneg hf h1
          · cases h

theorem mem_dictInsert {d : Dict} {k : ℤ} {v : MemInfo} {e : ℤ × MemInfo}
    (h : e ∈ dictInsert d k v) : e = (k, v) ∨ e ∈ d := by
  induction d with
  | nil =>
    simp only [dictInsert, List.mem_singleton] at h
    exact Or.inl h
  | cons y rest ih =>
    unfold dictInsert at h
    split at h
    · rcases List.mem_cons.mp h with rfl | hm
      · exact Or.inl rfl
      · exact Or.inr (List.mem_cons_of_mem _ hm)
    · rcases List.mem_cons.mp h with rfl | hm
      · exact Or.inr (List.mem_cons_self _ _)
      · rcases ih hm with h' | h'
        · exact Or.inl h'
        · exact Or.inr (List.mem_cons_of_mem _ h')

/-- Any property of the inserted rows (and of the starting dict) holds of
every entry of the dict built by the parsing loop. -/
theorem parseMapAux_preserve (P : ℤ × MemInfo → Prop) :
    ∀ (lines : List String) (d m : Dict), CompareTop.parseMapAux lines d = .ok m →
      (∀ e ∈ d, P e) →
      (∀ l ∈ lines, ∀ pid ms cmd q, rowFields l = some (pid, ms, cmd) →
        parse_memory_value ms = .ok q → P (pid, ⟨q, cmd⟩)) →
      ∀ e ∈ m, P e := by
  intro lines
  induction lines with
  | nil =>
    intro d m hok hd _ e he
    cases hok
    exact hd e he
  | cons l rest ih =>
    intro d m hok hd hrows e he
    unfold CompareTop.parseMapAux at hok
    split at hok
    · exact ih d m hok hd (fun l' hl' => hrows l' (List.mem_cons_of_mem _ hl')) e he
    · rename_i pid ms cmd hrow
      split at hok
      · cases hok
      · rename_i q hq
        refine ih _ m hok ?_ (fun l' hl' => hrows l' (List.mem_cons_of_mem _ hl')) e he
        intro e' he'
        rcases mem_dictInsert he' with rfl | h'
        · exact hrows l (List.mem_cons_self _ _) pid ms cmd q hrow hq
        · exact hd e' h'

/-- Claim C10 as amended: every record produced by parsing a snapshot has
`pid ≥ 0`, with no side condition; `memory_kb ≥ 0` holds only under the
additional premise that no accepted row's normalized memory field begins
with a minus sign (the parser does accept a leading minus and then stores
the negative value, as the counterexample shows). -/
theorem C10_record_invariant_amended (lines : List String) (m : Dict)
    (hok : CompareTop.parse_top_file lines = .ok m) :
    (∀ e ∈ m, 0 ≤ e.1) ∧
    ((∀ l ∈ lines, ∀ pid ms cmd, rowFields l = some (pid, ms, cmd) →
        (pyStrip (memNorm ms)).head? ≠ some '-' ∧
        (pyStrip ((memNorm ms).dropLast)).head? ≠ some '-') →
      ∀ e ∈ m, 0 ≤ e.2.mem) := by
  constructor
  · refine parseMapAux_preserve (fun e => 0 ≤ e.1) lines [] m hok (by simp) ?_
    intro l hl pid ms cmd q hrow hq
    exact rowFields_pid_nonneg hrow
  · intro hnn
    refine parseMapAux_preserve (fun e => 0 ≤ e.2.mem) lines [] m hok (by simp) ?_
    intro l hl pid ms cmd q hrow hq
    obtain ⟨h1, h2⟩ := hnn l hl pid ms cmd hrow
    exact parse_memory_value_nonneg hq h1 h2

/-- Witness for the amended C10: the unconditional pid half is instantiated
at the negative-memory snapshot itself (where the memory invariant fails),
the conditional memory half at a clean one-row snapshot. -/
theorem C10_record_invariant_amended_witness :
    0 ≤ ((1 : ℤ), (⟨-5, "cmd"⟩ : MemInfo)).1 ∧
    0 ≤ ((1 : ℤ), (⟨5, "cmd"⟩ : MemInfo)).2.mem := by
  constructor
  · refine (C10_record_invariant_amended ["1 a b c d -5 f g h i j cmd"]
      [(1, ⟨-5, "cmd"⟩)] ?_).1 (1, ⟨-5, "cmd"⟩) (by simp)
    simp +decide [CompareTop.parse_top_file, CompareTop.parseMapAux, rowFields, pySplit,
      pySplitAux, pySpace, digitFoldInt, charVal, parse_memory_value, memNorm, pyIsDigitsDots,
      pyStrip, pyToLower, pySign, pyFloatCore, parseMantissa, parseDigitpart, digitsAux,
      parseExpPart, dictInsert]
  · refine (C10_record_invariant_amended ["1 a b c d 5 f g h i j cmd"]
      [(1, ⟨5, "cmd"⟩)] ?_).2 ?_ (1, ⟨5, "cmd"⟩) (by simp)
    · simp +decide [CompareTop.parse_top_file, CompareTop.parseMapAux, rowFields, pySplit,
        pySplitAux, pySpace, digitFoldInt, charVal, parse_memory_value, memNorm, pyIsDigitsDots,
        pyStrip, pyToLower, pySign, pyFloatCore, parseMantissa, parseDigitpart, digitsAux,
        parseExpPart, dictInsert]
    · intro l hl pid ms cmd hrow
      simp only [List.mem_singleton] at hl
      subst hl
      have hr : rowFields "1 a b c d 5 f g h i j cmd" = some (1, "5", "cmd") := by decide
      rw [hr] at hrow
      cases hrow
      exact ⟨by decide, by decide⟩

theorem mergeSort_singleton {α : Type} (le : α → α → Bool) (a : α) :
    [a].mergeSort le = [a] :=
  List.perm_singleton.mp (List.mergeSort_perm [a] le)

/-- Claim C7 is falsified on the code: diffing two concrete parsed files
produces an entry with `mem_before = 0` and `change_kb = -5 < 0`, yet the
sentinel is the *positive* infinity, not the negative one the spec's
sign convention demands. -/
theorem C7_sentinel_sign_counterexample :
    compare_memory ["1 a b c d 0 f g h i j cmd"] ["1 a b c d -5 f g h i j cmd"] =
      .ok [{ pid := 1, cmd := "cmd", mem1 := 0, mem2 := -5, change := -5,
             change_rate := .posInf }] ∧
    specSentinel (-5) = .negInf ∧ PyRate.posInf ≠ PyRate.negInf := by
  refine ⟨?_, by norm_num [specSentinel], by simp⟩
  simp +decide [compare_memory, CompareTop.parse_top_file, CompareTop.parseMapAux, rowFields,
    pySplit, pySplitAux, pySpace, digitFoldInt, charVal, parse_memory_value, memNorm,
    pyIsDigitsDots, pyStrip, pyToLower, pySign, pyFloatCore, parseMantissa, parseDigitpart,
    digitsAux, parseExpPart, dictInsert, compare_memory_core, diffRow, dictGet?,
    List.filterMap_cons, List.filterMap_nil, mergeSort_singleton]

theorem dtLe_of_dtLt {a b : DT} (h : dtLt a b = true) : dtLe a b = true := by
  simp [dtLe, h]

theorem dtLe_of_not_dtLt {a b : DT} (h : dtLt b a = false) : dtLe a b = true := by
  cases a; cases b
  simp only [dtLt, decide_eq_false_iff_not] at h
  simp only [dtLe, dtLt, Bool.or_eq_true, decide_eq_true_eq, beq_iff_eq, DT.mk.injEq]
  omega

/-- Claim C6: the ordering guard fails exactly when one of the two names
does not resolve; otherwise it returns the pair sorted ascending by
resolved timestamp, together with a flag reporting whether the inputs
had to be swapped; concretely the out-of-order pair is swapped and the
swap reported. -/
theorem C6_ordering_guard :
    (∀ f1 f2 : String, ensure_time_order f1 f2 = .error () ↔
      (parse_timestamp_from_filename f1 = none ∨ parse_timestamp_from_filename f2 = none)) ∧
    (∀ f1 f2 g1 g2 sw, ensure_time_order f1 f2 = .ok (g1, g2, sw) →
      (∃ t1 t2, parse_timestamp_from_filename g1 = some t1 ∧
        parse_timestamp_from_filename g2 = some t2 ∧ dtLe t1 t2 = true) ∧
      (((g1, g2) = (f1, f2) ∧ sw = false) ∨ ((g1, g2) = (f2, f1) ∧ sw = true))) ∧
    ensure_time_order "top_20240102_0900.txt" "top_20240101_0900.txt" =
      .ok ("top_20240101_0900.txt", "top_20240102_0900.txt", true) := by
  refine ⟨?_, ?_, by rfl⟩
  · intro f1 f2
    unfold ensure_time_order
    rcases h1 : parse_timestamp_from_filename f1 with _ | t1 <;>
      rcases h2 : parse_timestamp_from_filename f2 with _ | t2 <;>
        simp [h1, h2]
    split <;> simp
  · intro f1 f2 g1 g2 sw hok
    unfold ensure_time_order at hok
    rcases h1 : parse_timestamp_from_filename f1 with _ | t1 <;> rw [h1] at hok <;>
      rcases h2 : parse_timestamp_from_filename f2 with _ | t2 <;> rw [h2] at hok <;>
        simp only [] at hok
    · cases hok
    · cases hok
    · cases hok
    · split at hok
      · rename_i hlt
        cases hok
        exact ⟨⟨t2, t1, h2, h1, dtLe_of_dtLt hlt⟩, Or.inr ⟨rfl, rfl⟩⟩
      · rename_i hlt
        cases hok
        exact ⟨⟨t1, t2, h1, h2, dtLe_of_not_dtLt (Bool.of_not_eq_true hlt)⟩,
          Or.inl ⟨rfl, rfl⟩⟩

/-- Witness for C6: the error clause and the success clause applied at
concrete names. -/
theorem C6_ordering_guard_witness :
    ensure_time_order "notes.txt" "top_20240101_0900.txt" = .error () ∧
    ((("top_20240101_0900.txt", "top_20240102_0900.txt") =
        ("top_20240101_0900.txt", "top_20240102_0900.txt") ∧ false = false) ∨
      (("top_20240101_0900.txt", "top_20240102_0900.txt") =
        ("top_20240102_0900.txt", "top_20240101_0900.txt") ∧ false = true)) := by
  constructor
  · exact (C6_ordering_guard.1 "notes.txt" "top_20240101_0900.txt").mpr (Or.inl (by decide))
  · exact ((C6_ordering_guard.2.1 "top_20240101_0900.txt" "top_20240102_0900.txt"
      "top_20240101_0900.txt" "top_20240102_0900.txt" false) (by rfl)).2

theorem dictGet?_dictInsert_self (d : Dict) (k : ℤ) (v : MemInfo) :
    dictGet? (dictInsert d k v) k = some v := by
  induction d with
  | nil => simp [dictInsert, dictGet?]
  | cons y rest ih =>
    by_cases hk : y.1 = k
    · simp [dictInsert, hk, dictGet?]
    · simp [dictInsert, hk, dictGet?, ih]

theorem dictGet?_dictInsert_ne (d : Dict) {k k' : ℤ} (v : MemInfo) (h : k' ≠ k) :
    dictGet? (dictInsert d k' v) k = dictGet? d k := by
  induction d with
  | nil => simp [dictInsert, dictGet?, h]
  | cons y rest ih =>
    by_cases hk : y.1 = k'
    · simp [dictInsert, hk, dictGet?, h]
    · simp [dictInsert, hk, dictGet?, ih]

/-- A block of lines containing no row for `t` leaves the dict's entry
for `t` unchanged. -/
theorem parseMapAux_get_unchanged (t : ℤ) :
    ∀ (lines : List String) (d m : Dict), CompareTop.parseMapAux lines d = .ok m →
      lines.countP (isTargetRow t) = 0 → dictGet? m t = dictGet? d t := by
  intro lines
  induction lines with
  | nil =>
    intro d m hok _
    cases hok
    rfl
  | cons l rest ih =>
    intro d m hok hcnt
    rw [List.countP_cons] at hcnt
    have hrest : rest.countP (isTargetRow t) = 0 := by omega
    have hl : isTargetRow t l = false := by
      by_cases h : isTargetRow t l = true
      · simp [h] at hcnt
      · simpa using h
    unfold CompareTop.parseMapAux at hok
    split at hok
    · exact ih d m hok hrest
    · rename_i pid ms cmd hrow
      have hpid : pid ≠ t := by
        simp only [isTargetRow, hrow, beq_eq_false_iff_ne, ne_eq] at hl
        exact hl
      split at hok
      · cases hok
      · rw [ih _ m hok hrest]
        exact dictGet?_dictInsert_ne d _ hpid

/-- The key refinement fact: when the whole-file parse succeeds and at
most one accepted row bears `t`, the first-match parser agrees with a
lookup in the final mapping. -/
theorem trackParse_eq_mapLookup (t : ℤ) :
    ∀ (lines : List String) (d m : Dict), CompareTop.parseMapAux lines d = .ok m →
      lines.countP (isTargetRow t) ≤ 1 → dictGet? d t = none →
      TrackPid.parse_top_file lines t = .ok ((dictGet? m t).map fun i => (t, i)) := by
  intro lines
  induction lines with
  | nil =>
    intro d m hok _ hd
    cases hok
    unfold TrackPid.parse_top_file
    rw [hd]
    rfl
  | cons l rest ih =>
    intro d m hok hcnt hd
    rw [List.countP_cons] at hcnt
    unfold CompareTop.parseMapAux at hok
    split at hok
    · rename_i hrow
      simp only [TrackPid.parse_top_file, hrow]
      have hrest : rest.countP (isTargetRow t) ≤ 1 :=
        le_trans (Nat.le_add_right _ _) hcnt
      exact ih d m hok hrest hd
    · rename_i pid ms cmd hrow
      simp only [TrackPid.parse_top_file, hrow]
      by_cases hpid : pid = t
      · subst hpid
        have htrue : isTargetRow pid l = true := by simp [isTargetRow, hrow]
        rw [htrue] at hcnt
        have hcnt0 : rest.countP (isTargetRow pid) = 0 := by
          have h1 : rest.countP (isTargetRow pid) + 1 ≤ 1 := by simpa using hcnt
          omega
        split at hok
        · cases hok
        · rename_i q hq
          rw [if_pos rfl]
          rw [parseMapAux_get_unchanged pid rest _ m hok hcnt0, dictGet?_dictInsert_self]
          rfl
      · have hfalse : isTargetRow t l = false := by
          simp [isTargetRow, hrow, hpid]
        rw [hfalse] at hcnt
        split at hok
        · cases hok
        · rename_i q hq
          rw [if_neg hpid]
          refine ih _ m hok (by simpa using hcnt) ?_
          rw [dictGet?_dictInsert_ne _ _ hpid]
          exact hd

/-- Claim C8 as amended: when the Snapshot Parser's full parse of the
file succeeds and the target PID appears on at most one accepted row,
the record the time-series collector extracts for the PID equals the
record the full mapping assigns to it.  When the same PID appears on
*several* accepted rows the two parsers disagree: the mapping keeps the
later row (last-write-wins) while the extractor returns the first, as
the counterexample shows. -/
theorem C8_extract_vs_mapping_amended (lines : List String) (t : ℤ) (m : Dict)
    (hok : CompareTop.parse_top_file lines = .ok m)
    (hdup : lines.countP (isTargetRow t) ≤ 1) :
    TrackPid.parse_top_file lines t = .ok ((dictGet? m t).map fun i => (t, i)) :=
  trackParse_eq_mapLookup t lines [] m hok hdup rfl

/-- Witness for the amended C8 at a concrete one-row file. -/
theorem C8_extract_vs_mapping_amended_witness :
    TrackPid.parse_top_file ["1 a b c d 100 f g h i j x"] 1 =
      .ok ((dictGet? [(1, ⟨100, "x"⟩)] 1).map fun i => ((1 : ℤ), i)) := by
  refine C8_extract_vs_mapping_amended _ 1 _ ?_ (by decide)
  simp +decide [CompareTop.parse_top_file, CompareTop.parseMapAux, rowFields, pySplit,
    pySplitAux, pySpace, digitFoldInt, charVal, parse_memory_value, memNorm, pyIsDigitsDots,
    pyStrip, pyToLower, pySign, pyFloatCore, parseMantissa, parseDigitpart, digitsAux,
    parseExpPart, dictInsert]

/-- Claim C8 is falsified on the code for duplicate PIDs: with the same
PID on two accepted rows, the collector's extractor returns the *first*
row's record while the mapping holds the *last* row's. -/
theorem C8_first_vs_last_counterexample :
    TrackPid.parse_top_file
      ["1 a b c d 100 f g h i j x", "1 a b c d 200 f g h i j x"] 1 =
      .ok (some (1, ⟨100, "x"⟩)) ∧
    CompareTop.parse_top_file
      ["1 a b c d 100 f g h i j x", "1 a b c d 200 f g h i j x"] =
      .ok [(1, ⟨200, "x"⟩)] ∧
    some ((1 : ℤ), (⟨100, "x"⟩ : MemInfo)) ≠ some ((1 : ℤ), (⟨200, "x"⟩ : MemInfo)) := by
  refine ⟨?_, ?_, by norm_num⟩
  · simp +decide [TrackPid.parse_top_file, rowFields, pySplit, pySplitAux, pySpace,
      digitFoldInt, charVal, parse_memory_value, memNorm, pyIsDigitsDots, pyStrip, pyToLower,
      pySign, pyFloatCore, parseMantissa, parseDigitpart, digitsAux, parseExpPart]
  · simp +decide [CompareTop.parse_top_file, CompareTop.parseMapAux, rowFields, pySplit,
      pySplitAux, pySpace, digitFoldInt, charVal, parse_memory_value, memNorm, pyIsDigitsDots,
      pyStrip, pyToLower, pySign, pyFloatCore, parseMantissa, parseDigitpart, digitsAux,
      parseExpPart, dictInsert]

/-- Claim C2 is contradicted by the code at this input: a directory with
one resolvable snapshot and one glob-matching but unresolvable name
(`top_zzz.txt`).  `sorted(..., key=parse_timestamp_from_filename)`
compares the `None` key with a `datetime` and raises `TypeError` instead
of discarding the unresolvable entry. -/
theorem C2_collect_sort_crash :
    collect_memory_data
      [("top_20240101_0900.txt", ["100 a b c d 2048 f g h i j proc_a"]),
       ("top_zzz.txt", [])] 100 = .error .typeErr := by
  rfl

/-! ## Lemmas for the timestamp-resolver claim -/

theorem ne_of_isDigit {c x : Char} (hd : c.isDigit = true) (hx : x.isDigit = false) :
    c ≠ x := by
  intro h
  rw [h, hx] at hd
  cases hd

theorem isDigit_digitChar {k : ℕ} (hk : k < 10) :
    (Char.ofNat (48 + k)).isDigit = true := by
  interval_cases k <;> decide

theorem charVal_digitChar {k : ℕ} (hk : k < 10) :
    charVal (Char.ofNat (48 + k)) = k := by
  interval_cases k <;> decide

theorem charVal_ofNat {n : ℕ} (h1 : 48 ≤ n) (h2 : n ≤ 57) :
    charVal (Char.ofNat n) = n - 48 := by
  interval_cases n <;> decide

theorem isDigit_ofNat {n : ℕ} (h1 : 48 ≤ n) (h2 : n ≤ 57) :
    (Char.ofNat n).isDigit = true := by
  interval_cases n <;> decide

theorem takeWhile_all {p : Char → Bool} :
    ∀ l : List Char, (∀ c ∈ l, p c = true) → l.takeWhile p = l := by
  intro l
  induction l with
  | nil => intro _; rfl
  | cons c rest ih =>
    intro h
    rw [List.takeWhile_cons, h c (List.mem_cons_self _ _)]
    simp [ih (fun x hx => h x (List.mem_cons_of_mem _ hx))]

theorem pyBasename_eq_self {cs : List Char} (h : ∀ c ∈ cs, c ≠ '/') :
    pyBasename cs = cs := by
  unfold pyBasename
  rw [takeWhile_all cs.reverse (fun c hc => by
    simpa using h c (List.mem_reverse.mp hc)), List.reverse_reverse]

/-- Scanning `a ++ b` when no character of `a` can start the pattern:
the scan walks through `a` untouched and continues on `b`. -/
theorem strReplaceAux_skip {p0 : Char} {ptl : List Char} :
    ∀ (a b : List Char) (fuel : ℕ), a.length + b.length ≤ fuel →
      (∀ c ∈ a, c ≠ p0) →
      strReplaceAux (p0 :: ptl) fuel (a ++ b) =
        a ++ strReplaceAux (p0 :: ptl) (fuel - a.length) b := by
  intro a
  induction a with
  | nil =>
    intro b fuel _ _
    simp
  | cons c a' ih =>
    intro b fuel hfuel hnc
    rcases fuel with _ | f
    · simp at hfuel
    · have hc : c ≠ p0 := hnc c (List.mem_cons_self _ _)
      show strReplaceAux (p0 :: ptl) (f + 1) (c :: (a' ++ b)) = _
      simp only [strReplaceAux]
      rw [if_neg ?_]
      · rw [ih b f (by simp at hfuel ⊢; omega) (fun x hx => hnc x (List.mem_cons_of_mem _ hx))]
        have h2 : f + 1 - (c :: a').length = f - a'.length := by
          simp
        rw [h2]
        simp
      · intro hcon
        have hpre := hcon.2
        simp only [List.isPrefixOf, Bool.and_eq_true, beq_iff_eq] at hpre
        exact hc (hpre.1.symm)

theorem matchYear_pad4 {y : ℕ} (hy : y ≤ 9999) (rest : List Char) :
    matchYear (pad4 y ++ rest) = some (y, rest) := by
  have h1 : y / 1000 < 10 := by omega
  have h2 : y / 100 % 10 < 10 := by omega
  have h3 : y / 10 % 10 < 10 := by omega
  have h4 : y % 10 < 10 := by omega
  simp only [pad4, List.cons_append, List.nil_append, matchYear]
  rw [if_pos ⟨isDigit_digitChar h1, isDigit_digitChar h2, isDigit_digitChar h3,
    isDigit_digitChar h4⟩]
  rw [charVal_digitChar h1, charVal_digitChar h2, charVal_digitChar h3, charVal_digitChar h4]
  simp only [Option.some.injEq, Prod.mk.injEq]
  exact ⟨by omega, trivial⟩

theorem month_step {α : Type} {mo : ℕ} (hmo1 : 1 ≤ mo) (hmo : mo ≤ 12)
    (rest : List Char) (k : ℕ × List Char → Option α) {v : α}
    (hk : k (mo, rest) = some v) :
    monthAlts.findSome? (fun am => (am (pad2 mo ++ rest)).bind k) = some v := by
  interval_cases mo <;>
    simp +decide [monthAlts, matchTwo, matchOne, pad2, charVal_ofNat, List.findSome?_cons,
      List.cons_append, List.nil_append, hk]

theorem day_step {α : Type} {d : ℕ} (hd1 : 1 ≤ d) (hd : d ≤ 31)
    (rest : List Char) (k : ℕ × List Char → Option α) {v : α}
    (hk : k (d, rest) = some v) :
    dayAlts.findSome? (fun ad => (ad (pad2 d ++ rest)).bind k) = some v := by
  interval_cases d <;>
    simp +decide [dayAlts, matchTwo, matchOne, pad2, charVal_ofNat, isDigit_ofNat,
      List.findSome?_cons, List.cons_append, List.nil_append, hk]

theorem hour_step {α : Type} {h : ℕ} (hh : h ≤ 23)
    (rest : List Char) (k : ℕ × List Char → Option α) {v : α}
    (hk : k (h, rest) = some v) :
    hourAlts.findSome? (fun ah => (ah (pad2 h ++ rest)).bind k) = some v := by
  interval_cases h <;>
    simp +decide [hourAlts, matchTwo, matchOne, pad2, charVal_ofNat, isDigit_ofNat,
      List.findSome?_cons, List.cons_append, List.nil_append, hk]

theorem minute_step {α : Type} {mi : ℕ} (hmi : mi ≤ 59)
    (rest : List Char) (k : ℕ × List Char → Option α) {v : α}
    (hk : k (mi, rest) = some v) :
    minuteAlts.findSome? (fun amn => (amn (pad2 mi ++ rest)).bind k) = some v := by
  interval_cases mi <;>
    simp +decide [minuteAlts, matchTwo, matchOne, pad2, charVal_ofNat, isDigit_ofNat,
      List.findSome?_cons, List.cons_append, List.nil_append, hk]

theorem isPrefixOf_append_self : ∀ (a b : List Char), a.isPrefixOf (a ++ b) = true := by
  intro a b
  induction a with
  | nil => cases b <;> rfl
  | cons c rest ih => simp [List.isPrefixOf, ih]

theorem strReplaceAux_cons_match {p : Char} {pt s : List Char} (fuel : ℕ) :
    strReplaceAux (p :: pt) (fuel + 1) ((p :: pt) ++ s) = strReplaceAux (p :: pt) fuel s := by
  show strReplaceAux (p :: pt) (fuel + 1) (p :: (pt ++ s)) = _
  simp only [strReplaceAux]
  rw [if_pos ⟨List.cons_ne_nil _ _, isPrefixOf_append_self (p :: pt) s⟩]
  have hd : List.drop (p :: pt).length (p :: (pt ++ s)) = s := List.drop_left (p :: pt) s
  rw [hd]

/-- Deleting every `"top_"` and then every `".txt"` from a canonical
name leaves exactly the `YYYYMMDD_HHMM` middle, provided the middle
contains no `'t'` and no `'.'`. -/
theorem strReplace_stripName {C : List Char} (hCt : ∀ c ∈ C, c ≠ 't')
    (hCd : ∀ c ∈ C, c ≠ '.') :
    strReplace ['.', 't', 'x', 't'] (strReplace ['t', 'o', 'p', '_']
      (['t', 'o', 'p', '_'] ++ (C ++ ['.', 't', 'x', 't']))) = C := by
  have hinner : strReplace ['t', 'o', 'p', '_']
      (['t', 'o', 'p', '_'] ++ (C ++ ['.', 't', 'x', 't'])) = C ++ ['.', 't', 'x', 't'] := by
    unfold strReplace
    have hlen : ((['t', 'o', 'p', '_'] : List Char) ++ (C ++ ['.', 't', 'x', 't'])).length =
        (C.length + 7) + 1 := by
      simp [List.length_append]
    rw [hlen, strReplaceAux_cons_match]
    have hsplit : C ++ ['.', 't', 'x', 't'] = (C ++ ['.']) ++ ['t', 'x', 't'] := by
      rw [List.append_assoc]
      rfl
    have hchars : ∀ c ∈ C ++ ['.'], c ≠ 't' := by
      intro c hc
      rcases List.mem_append.mp hc with h | h
      · exact hCt c h
      · simp only [List.mem_singleton] at h
        subst h
        decide
    have hfuel : (C ++ ['.']).length + (['t', 'x', 't'] : List Char).length ≤ C.length + 7 := by
      simp [List.length_append]
    rw [hsplit, strReplaceAux_skip (C ++ ['.']) ['t', 'x', 't'] (C.length + 7) hfuel hchars]
    have hfu : (C.length + 7) - (C ++ ['.']).length = 6 := by
      simp [List.length_append]
    rw [hfu]
    have h6 : strReplaceAux ['t', 'o', 'p', '_'] 6 ['t', 'x', 't'] = ['t', 'x', 't'] := by decide
    rw [h6, ← hsplit]
  rw [hinner]
  unfold strReplace
  have hlen2 : (C ++ ['.', 't', 'x', 't']).length = C.length + 4 := by
    simp [List.length_append]
  have hfuel2 : C.length + (['.', 't', 'x', 't'] : List Char).length ≤ C.length + 4 := by
    simp [List.length_append]
  rw [hlen2, strReplaceAux_skip C ['.', 't', 'x', 't'] (C.length + 4) hfuel2 hCd]
  have hfu2 : (C.length + 4) - C.length = 4 := by omega
  rw [hfu2]
  have h4 : strReplaceAux ['.', 't', 'x', 't'] 4 ['.', 't', 'x', 't'] = [] := by decide
  rw [h4, List.append_nil]

theorem daysInMonth_le (y mo : ℕ) : daysInMonth y mo ≤ 31 := by
  unfold daysInMonth
  split
  · split <;> omega
  · split <;> omega

theorem mem_pad2 {n : ℕ} (hn : n ≤ 99) {c : Char} (hc : c ∈ pad2 n) :
    c.isDigit = true := by
  simp only [pad2, List.mem_cons, List.not_mem_nil, or_false] at hc
  rcases hc with rfl | rfl
  · exact isDigit_digitChar (by omega)
  · exact isDigit_digitChar (by omega)

theorem mem_pad4 {n : ℕ} (hn : n ≤ 9999) {c : Char} (hc : c ∈ pad4 n) :
    c.isDigit = true := by
  simp only [pad4, List.mem_cons, List.not_mem_nil, or_false] at hc
  rcases hc with rfl | rfl | rfl | rfl
  · exact isDigit_digitChar (by omega)
  · exact isDigit_digitChar (by omega)
  · exact isDigit_digitChar (by omega)
  · exact isDigit_digitChar (by omega)

theorem mem_topCore {y mo d h mi : ℕ} (hy : y ≤ 9999) (hmo : mo ≤ 99) (hd : d ≤ 99)
    (hh : h ≤ 99) (hmi : mi ≤ 99) :
    ∀ c ∈ topCore y mo d h mi, c.isDigit = true ∨ c = '_' := by
  intro c hc
  simp only [topCore, List.mem_append, List.mem_cons] at hc
  rcases hc with h | h | h | rfl | h | h
  · exact Or.inl (mem_pad4 hy h)
  · exact Or.inl (mem_pad2 hmo h)
  · exact Or.inl (mem_pad2 hd h)
  · exact Or.inr rfl
  · exact Or.inl (mem_pad2 hh h)
  · exact Or.inl (mem_pad2 hmi h)

theorem topCore_ne {y mo d h mi : ℕ} (hy : y ≤ 9999) (hmo : mo ≤ 99) (hd : d ≤ 99)
    (hh : h ≤ 99) (hmi : mi ≤ 99) {x : Char} (hx : x.isDigit = false) (hx2 : x ≠ '_') :
    ∀ c ∈ topCore y mo d h mi, c ≠ x := by
  intro c hc
  rcases mem_topCore hy hmo hd hh hmi c hc with hdig | rfl
  · exact ne_of_isDigit hdig hx
  · exact fun hcon => hx2 hcon.symm

/-- The resolver maps every identifier whose base name (the part after the
last slash, as computed by `pyBasename`) is the canonical
`top_YYYYMMDD_HHMM.txt` name (valid calendar date, valid time of day) to
the corresponding datetime; the directory portion, whatever it is, plays
no role. -/
theorem resolve_of_basename {s : String} {y mo d h mi : ℕ} (hy1 : 1 ≤ y) (hy : y ≤ 9999)
    (hmo1 : 1 ≤ mo) (hmo : mo ≤ 12) (hd1 : 1 ≤ d) (hdm : d ≤ daysInMonth y mo)
    (hh : h ≤ 23) (hmi : mi ≤ 59)
    (hbase : pyBasename s.toList = (topName y mo d h mi).toList) :
    parse_timestamp_from_filename s = some ⟨y, mo, d, h, mi⟩ := by
  have hd31 : d ≤ 31 := le_trans hdm (daysInMonth_le y mo)
  have hmo99 : mo ≤ 99 := by omega
  have hd99 : d ≤ 99 := by omega
  have hh99 : h ≤ 99 := by omega
  have hmi99 : mi ≤ 99 := by omega
  unfold parse_timestamp_from_filename
  have htl : (topName y mo d h mi).toList =
      ['t', 'o', 'p', '_'] ++ (topCore y mo d h mi ++ ['.', 't', 'x', 't']) := rfl
  rw [hbase, htl]
  have htop : "top_".toList = ['t', 'o', 'p', '_'] := rfl
  have htxt : ".txt".toList = ['.', 't', 'x', 't'] := rfl
  rw [htop, htxt]
  rw [strReplace_stripName
    (topCore_ne hy hmo99 hd99 hh99 hmi99 (by decide) (by decide))
    (topCore_ne hy hmo99 hd99 hh99 hmi99 (by decide) (by decide))]
  have hmatch : matchYmdHM (topCore y mo d h mi) = some ((y, mo, d, h, mi), []) := by
    unfold matchYmdHM topCore
    rw [matchYear_pad4 hy]
    simp only [Option.bind]
    refine month_step hmo1 hmo _ _ ?_
    refine day_step hd1 hd31 _ _ ?_
    refine hour_step hh _ _ ?_
    rw [show pad2 mi = pad2 mi ++ [] from (List.append_nil _).symm]
    refine minute_step hmi _ _ ?_
    rfl
  unfold strptimeYmdHM
  simp only [hmatch]
  rw [if_pos ⟨trivial, hy1, hd1, hdm⟩]

/-- Claim C3 as amended: the resolver is a total function (never
raises); every identifier — directory portion included — whose base name
matches the literal pattern `top_<YYYYMMDD>_<HHMM>.txt` with a valid
calendar date and time of day resolves to the corresponding datetime;
`resolve("top_20240101_0900.txt")` is 2024-01-01 09:00 and
`resolve("notes.txt")` is absent.  The original claim's converse half —
absent on every *other* name — is false, see the counterexample. -/
theorem C3_resolver_amended :
    (∀ (s : String) (y mo d h mi : ℕ), 1 ≤ y → y ≤ 9999 → 1 ≤ mo → mo ≤ 12 → 1 ≤ d →
      d ≤ daysInMonth y mo → h ≤ 23 → mi ≤ 59 →
      pyBasename s.toList = (topName y mo d h mi).toList →
      parse_timestamp_from_filename s = some ⟨y, mo, d, h, mi⟩) ∧
    parse_timestamp_from_filename "top_20240101_0900.txt" = some ⟨2024, 1, 1, 9, 0⟩ ∧
    parse_timestamp_from_filename "notes.txt" = none :=
  ⟨fun _ _ _ _ _ _ hy1 hy hmo1 hmo hd1 hdm hh hmi hbase =>
    resolve_of_basename hy1 hy hmo1 hmo hd1 hdm hh hmi hbase, by decide, by decide⟩

/-- Witness for the amended C3 at a concrete directory-prefixed identifier
whose base name is the canonical form of a leap-year February 29: the
basename step strips the directory before the pattern is recognised. -/
theorem C3_resolver_amended_witness :
    parse_timestamp_from_filename "snapshots/top_20240229_2359.txt" =
      some ⟨2024, 2, 29, 23, 59⟩ :=
  C3_resolver_amended.1 "snapshots/top_20240229_2359.txt" 2024 2 29 23 59 (by norm_num)
    (by norm_num) (by norm_num) (by norm_num) (by norm_num) (by decide) (by norm_num)
    (by norm_num) (by decide)

/-- Claim C3 is falsified in its "returns absent on any other name"
half: `"20240101_0900"` does not even begin with `top_`, yet it
resolves — the source deletes `top_`/`.txt` wherever they occur instead
of matching an anchored pattern. -/
theorem C3_resolver_counterexample :
    parse_timestamp_from_filename "20240101_0900" = some ⟨2024, 1, 1, 9, 0⟩ ∧
    "top_".toList.isPrefixOf (pyBasename "20240101_0900".toList) = false := by
  constructor
  · decide
  · decide
